import Mathlib

/-!
Verification of the `autoerror` derive macro (src/lib.rs).

The macro is a pure compile-time transformation: it reads the syntactic
declaration of an enum and either emits a diagnostic or generated source
text.  We embed the subset of the syntax tree the macro inspects and
transcribe each function of the source (`infer_is_error`, `infer_format_str`,
`parse_variant`, `derive` and the three emitter passes) as an executable Lean
definition, then prove the specified properties about them.
-/

set_option autoImplicit false

namespace AutoError

/-- A type reference as inspected by the macro: either a type path
(`syn::Type::Path`, kept as the list of its segment identifiers) or any
other kind of type, whose structure the macro never examines. -/
inductive Ty where
  | path (segments : List String)
  | other
deriving DecidableEq

/-- The field list of an enum variant (`syn::Fields`): named (record style),
unnamed (tuple style), or unit.  Only the field types are retained; the
macro reads nothing else from a field. -/
inductive Fields where
  | named (tys : List Ty)
  | unnamed (tys : List Ty)
  | unitF
deriving DecidableEq

/-- The number of fields (`syn::Fields::len`). -/
def Fields.len : Fields → Nat
  | .named tys => tys.length
  | .unnamed tys => tys.length
  | .unitF => 0

/-- The sequence of field types in declaration order (`fields.iter()`). -/
def Fields.tys : Fields → List Ty
  | .named tys => tys
  | .unnamed tys => tys
  | .unitF => []

/-- A literal (`syn::Lit`), as far as the macro distinguishes literal kinds:
bool, string, or anything else. -/
inductive Lit where
  | boolLit (value : Bool)
  | strLit (value : String)
  | otherLit
deriving DecidableEq

/-- A `syn::Meta` occurring nested inside a meta list.  The macro never
looks inside a nested `Meta::List`, so its items are not retained. -/
inductive MetaItem where
  | path (p : String)
  | list
  | nameValue (name : String) (lit : Lit)
deriving DecidableEq

/-- An element of a meta list (`syn::NestedMeta`): either a meta or a bare
literal. -/
inductive NestedMeta where
  | meta (m : MetaItem)
  | lit (l : Lit)
deriving DecidableEq

/-- The result of `Attribute::parse_meta` on an attribute: a path, a
parenthesized list of nested metas, or a `name = value` pair. -/
inductive Meta where
  | path (p : String)
  | list (items : List NestedMeta)
  | nameValue (name : String) (lit : Lit)
deriving DecidableEq

/-- An attribute on a variant: its path (e.g. `auto_error`) and the result
of `parse_meta`; `none` models a `parse_meta` failure, whose syn error the
macro forwards as a compile error. -/
structure Attr where
  path : String
  parsedMeta : Option Meta
deriving DecidableEq

/-- An enum variant (`syn::Variant`): name, attributes, and field list. -/
structure Variant where
  name : String
  attrs : List Attr
  fields : Fields
deriving DecidableEq

/-- The compile-time diagnostics the macro can emit: one constructor per
`syn::Error::new_spanned` message in the source, plus `metaParse` for a
forwarded `parse_meta` error. -/
inductive Diag where
  | namedFieldsUnsupported
  | duplicateDirective
  | metaParse
  | incorrectArgs
  | badErrValue
  | badFormatStrValue
  | badMakeFromValue
  | unknownParameter
  | errArityMismatch
  | fromArityMismatch
  | notAnEnum
deriving DecidableEq

/-- The name-based heuristic `infer_is_error` (src/lib.rs:41-61).  Named
fields: false.  Field count other than one: false.  Otherwise true exactly
when the single field's type is a path whose last segment is `Error`. -/
def infer_is_error (variant : Variant) : Bool :=
  match variant.fields with
  | .named _ => false
  | _ =>
    if variant.fields.len ≠ 1 then false
    else
      match variant.fields.tys.head? with
      | some (Ty.path segments) =>
        if segments.length = 0 then false
        else if segments.getLast? = some "Error" then true
        else false
      | _ => false

/-- The default format string `infer_format_str` (src/lib.rs:64-76): appends
a placeholder per field,
the first without a leading space, the rest with one. -/
def infer_format_str (variant : Variant) : String :=
  (variant.fields.tys.foldl
    (fun (acc : String × Bool) _ =>
      if acc.2 then (acc.1 ++ "\x7b\x7d", false) else (acc.1 ++ " \x7b\x7d", false))
    ("", true)).1

/-- The resolved per-variant policy (`struct ErrorVariant`). -/
structure ErrorVariant where
  err : Bool
  make_from : Bool
  format_str : String
  variant : Variant
deriving DecidableEq

/-- The attribute-scanning loop of `parse_variant` (src/lib.rs:94-102):
walks the attribute list keeping the `auto_error` attribute found so far,
failing on a second occurrence regardless of either attribute's contents. -/
def find_auto_error : List Attr → Option Attr → Except Diag (Option Attr)
  | [], acc => .ok acc
  | a :: rest, acc =>
    if a.path = "auto_error" then
      if acc.isSome then .error .duplicateDirective
      else find_auto_error rest (some a)
    else find_auto_error rest acc

/-- One iteration of the directive-argument loop (src/lib.rs:118-145):
a nested meta must be a `name = literal` pair; `err` and `make_from` take a
bool, `format_str` a string; any other name is unknown. -/
def apply_arg (result : ErrorVariant) (arg : NestedMeta) : Except Diag ErrorVariant :=
  match arg with
  | .lit _ => .error .incorrectArgs
  | .meta m =>
    match m with
    | .nameValue name lit =>
      if name = "err" then
        match lit with
        | .boolLit v => .ok { result with err := v }
        | _ => .error .badErrValue
      else if name = "format_str" then
        match lit with
        | .strLit v => .ok { result with format_str := v }
        | _ => .error .badFormatStrValue
      else if name = "make_from" then
        match lit with
        | .boolLit v => .ok { result with make_from := v }
        | _ => .error .badMakeFromValue
      else .error .unknownParameter
    | _ => .error .incorrectArgs

/-- The directive-argument loop itself: sequential mutation of `result`
with early return on error. -/
def apply_args : ErrorVariant → List NestedMeta → Except Diag ErrorVariant
  | result, [] => .ok result
  | result, arg :: rest =>
    match apply_arg result arg with
    | .error e => .error e
    | .ok result => apply_args result rest

/-- The directive block of `parse_variant` (src/lib.rs:111-146): parse the
attribute's meta, require a `Meta::List`, then fold the arguments over the
inferred defaults. -/
def apply_directive (attr : Attr) (result : ErrorVariant) : Except Diag ErrorVariant :=
  match attr.parsedMeta with
  | none => .error .metaParse
  | some meta =>
    match meta with
    | .list items => apply_args result items
    | _ => .error .incorrectArgs

/-- The part of `parse_variant` up to and including the directive override
(src/lib.rs:86-146): shape check, duplicate-directive scan, inferred
defaults, then the optional directive. -/
def resolve_policy (variant : Variant) : Except Diag ErrorVariant :=
  match variant.fields with
  | .named _ => .error .namedFieldsUnsupported
  | _ =>
    match find_auto_error variant.attrs none with
    | .error e => .error e
    | .ok attrOpt =>
      let result : ErrorVariant :=
        { err := infer_is_error variant
          make_from := infer_is_error variant
          format_str := infer_format_str variant
          variant := variant }
      match attrOpt with
      | none => .ok result
      | some attr => apply_directive attr result

/-- The whole `parse_variant` (src/lib.rs:86-157): the resolved policy followed by the
two arity checks (src/lib.rs:148-154). -/
def parse_variant (variant : Variant) : Except Diag ErrorVariant :=
  match resolve_policy variant with
  | .error e => .error e
  | .ok result =>
    if result.err && result.variant.fields.len != 1 then
      .error .errArityMismatch
    else if result.make_from && result.variant.fields.len != 1 then
      .error .fromArityMismatch
    else
      .ok result

/-- One emitted `From` implementation (the cause-conversion pass): source
type and target variant name. -/
structure FromImpl where
  sourcetype : Ty
  curvar : String
deriving DecidableEq

/-- One arm of the emitted `Display` implementation: variant name, format
string, and the positional binder names `f0, f1, …` for unnamed fields. -/
inductive DisplayArm where
  | unnamedArm (curvar : String) (format_str : String) (params : List String)
  | unitArm (curvar : String) (format_str : String)
deriving DecidableEq

/-- The `from_impls` pass body (src/lib.rs:208-223) for one variant: `none`
models the `unwrap` panic when a `make_from` variant has no field; otherwise
`some none` (skipped) or `some (some impl)`. -/
def from_impl (var : ErrorVariant) : Option (Option FromImpl) :=
  if !var.make_from then some none
  else
    match var.variant.fields.tys.head? with
    | none => none
    | some sourcetype => some (some { sourcetype := sourcetype, curvar := var.variant.name })

/-- The binder names `f0, f1, …` generated for a variant's fields
(src/lib.rs:228-230). -/
def display_params (var : ErrorVariant) : List String :=
  (List.range var.variant.fields.tys.length).map (fun i => "f" ++ toString i)

/-- The `display_branches` pass body (src/lib.rs:225-241) for one variant:
`none` models the internal-error panic on named fields. -/
def display_branch (var : ErrorVariant) : Option DisplayArm :=
  match var.variant.fields with
  | .unnamed _ => some (.unnamedArm var.variant.name var.format_str (display_params var))
  | .unitF => some (.unitArm var.variant.name var.format_str)
  | .named _ => none

/-- The `source_branches` pass body (src/lib.rs:243-251) for one variant:
a match arm `Self::Name(e) => Some(e)` (recorded by variant name, since the
arm always binds and returns the sole field by reference) for `err`
variants, nothing otherwise. -/
def source_branch (var : ErrorVariant) : Option String :=
  if !var.err then none
  else some var.variant.name

/-- The complete generated token stream: the `From` impls, the `Display`
match arms, and the `Error::source` match arms (the emitted `source` match
always ends with the catch-all arm returning `None`). -/
structure Generated where
  error_ident : String
  from_impls : List FromImpl
  display_branches : List DisplayArm
  source_branches : List String
deriving DecidableEq

/-- The data of the derive input (`syn::Data`): an enum with its variants, or one of
the other item kinds, whose contents the macro never examines. -/
inductive Data where
  | enumData (variants : List Variant)
  | structData
  | unionData
deriving DecidableEq

/-- The derive input (`syn::DeriveInput`): the annotated item's identifier and data. -/
structure DeriveInput where
  ident : String
  data : Data
deriving DecidableEq

/-- The observable outcome of one macro expansion: a compile-time
diagnostic, an internal panic, or a complete generated fragment. -/
inductive DeriveResult where
  | diag (d : Diag)
  | panicked
  | output (g : Generated)
deriving DecidableEq

/-- The fallible collect over `parse_variant` (src/lib.rs:202): stops at the
first failing variant. -/
def collect_variants : List Variant → Except Diag (List ErrorVariant)
  | [] => .ok []
  | v :: rest =>
    match parse_variant v with
    | .error e => .error e
    | .ok ev =>
      match collect_variants rest with
      | .error e => .error e
      | .ok evs => .ok (ev :: evs)

/-- Running a per-variant emitter pass over the variant list; `none` as
soon as one variant panics. -/
def collect_pass {α β : Type} (f : α → Option β) : List α → Option (List β)
  | [] => some []
  | a :: rest =>
    match f a with
    | none => none
    | some b =>
      match collect_pass f rest with
      | none => none
      | some bs => some (b :: bs)

/-- The emitter stage (src/lib.rs:208-273): the three passes assembled into
the final token stream.  Skipped `from`/`source` contributions (`None` in
the iterator) disappear from the interpolated output, hence `filterMap`. -/
def emit (error_ident : String) (error_variants : List ErrorVariant) : Option Generated :=
  match collect_pass from_impl error_variants with
  | none => none
  | some fis =>
    match collect_pass display_branch error_variants with
    | none => none
    | some dbs =>
      some { error_ident := error_ident
             from_impls := fis.filterMap id
             display_branches := dbs
             source_branches := (error_variants.map source_branch).filterMap id }

/-- The entry point `derive` (src/lib.rs:192-273): reject non-enums, parse every variant
(first failure aborts), then emit. -/
def derive (input : DeriveInput) : DeriveResult :=
  match input.data with
  | .enumData variants =>
    match collect_variants variants with
    | .error e => .diag e
    | .ok error_variants =>
      match emit input.ident error_variants with
      | none => .panicked
      | some g => .output g
  | _ => .diag .notAnEnum

/-! ### Spec-side definitions

These follow the specification's words, to be compared with the
definitions transcribed from the source. -/

/-- Spec-side shape from §4.2: exactly one unnamed field whose type is a
path whose last segment is lexically `Error`. -/
def isWrappedCauseShape (v : Variant) : Prop :=
  ∃ segments, v.fields = Fields.unnamed [Ty.path segments] ∧
    segments.getLast? = some "Error"

/-- Spec-side joining of a list of strings by single spaces. -/
def joinSpace : List String → String
  | [] => ""
  | [x] => x
  | x :: y :: rest => x ++ " " ++ joinSpace (y :: rest)

/-- Spec-side default format string from §3: `n` placeholder tokens joined
by single spaces. -/
def spec_format_str (n : Nat) : String :=
  joinSpace (List.replicate n "\x7b\x7d")

/-- The suffix `infer_format_str` appends for each field after the first:
`n` copies of a space followed by a placeholder. -/
def tailfmt : Nat → String
  | 0 => ""
  | n + 1 => " \x7b\x7d" ++ tailfmt n

/-- The boolean value an argument assigns to the `err` option, if any. -/
def err_assign : NestedMeta → Option Bool
  | .meta (.nameValue n (.boolLit b)) => if n = "err" then some b else none
  | _ => none

/-- The boolean value an argument assigns to the `make_from` option, if any. -/
def from_assign : NestedMeta → Option Bool
  | .meta (.nameValue n (.boolLit b)) => if n = "make_from" then some b else none
  | _ => none

/-- The string value an argument assigns to the `format_str` option, if any. -/
def fmt_assign : NestedMeta → Option String
  | .meta (.nameValue n (.strLit s)) => if n = "format_str" then some s else none
  | _ => none

/-! ### Concrete inputs, mirroring the repository's test fixtures -/

/-- The variant `IO(std::io::Error)` with no attribute. -/
def v_io : Variant :=
  { name := "IO", attrs := [], fields := .unnamed [Ty.path ["std", "io", "Error"]] }

/-- A record-style variant. -/
def v_named : Variant :=
  { name := "N", attrs := [], fields := .named [Ty.path ["String"]] }

/-- The unit variant `NotFound` with no attribute. -/
def v_unit : Variant :=
  { name := "NotFound", attrs := [], fields := .unitF }

/-- The attribute `#[auto_error(err=true)]`. -/
def attr_err_true : Attr :=
  { path := "auto_error"
    parsedMeta := some (.list [.meta (.nameValue "err" (.boolLit true))]) }

/-- The attribute `#[auto_error()]`. -/
def attr_empty : Attr :=
  { path := "auto_error", parsedMeta := some (.list []) }

/-- A unit variant carrying `#[auto_error(err=true)]`. -/
def v_err_unit : Variant :=
  { name := "A", attrs := [attr_err_true], fields := .unitF }

/-- The variant of tests/double_auto_error.rs: two `auto_error` attributes
on `A(std::io::Error)`. -/
def v_dup : Variant :=
  { name := "A", attrs := [attr_err_true, attr_empty]
    fields := .unnamed [Ty.path ["std", "io", "Error"]] }

/-- The argument list of `#[auto_error(format_str="custom")]`. -/
def fmt_items : List NestedMeta :=
  [.meta (.nameValue "format_str" (.strLit "custom"))]

/-- The attribute `#[auto_error(format_str="custom")]`. -/
def attr_fmt_only : Attr :=
  { path := "auto_error", parsedMeta := some (.list fmt_items) }

/-- An inferred-cause variant carrying only a `format_str` override. -/
def v_fmt_only : Variant :=
  { name := "B", attrs := [attr_fmt_only], fields := .unnamed [Ty.path ["Error"]] }

/-- The resolved policy of `v_fmt_only`: the override changes only the
format string, the inferred booleans survive. -/
def ev_fmt_only : ErrorVariant :=
  { err := true, make_from := true, format_str := "custom", variant := v_fmt_only }

/-- The attribute `#[auto_error(make_from=true)]` (same contents as `attr_D`). -/
def attr_mf_true : Attr :=
  { path := "auto_error"
    parsedMeta := some (.list [.meta (.nameValue "make_from" (.boolLit true))]) }

/-- A unit variant carrying `#[auto_error(make_from=true)]`. -/
def v_mf_unit : Variant :=
  { name := "A", attrs := [attr_mf_true], fields := .unitF }

/-- The resolved policy of `v_io`. -/
def ev_io : ErrorVariant :=
  { err := true, make_from := true, format_str := "\x7b\x7d", variant := v_io }

/-- A derive input that is a struct, not an enum. -/
def input_struct : DeriveInput := { ident := "Error", data := .structData }

/-- A derive input whose enum contains a record-style variant. -/
def input_named : DeriveInput := { ident := "Error", data := .enumData [v_named] }

/-- Variant `A(e1::Error)` of tests/test_generation.rs. -/
def g_A : Variant :=
  { name := "A", attrs := [], fields := .unnamed [Ty.path ["e1", "Error"]] }

/-- The attribute `#[auto_error(err=false, make_from=false, format_str="Error {}")]`. -/
def attr_B : Attr :=
  { path := "auto_error"
    parsedMeta := some (.list
      [.meta (.nameValue "err" (.boolLit false)),
       .meta (.nameValue "make_from" (.boolLit false)),
       .meta (.nameValue "format_str" (.strLit "Error \x7b\x7d"))]) }

/-- Variant `B(e2::Error)` of tests/test_generation.rs. -/
def g_B : Variant :=
  { name := "B", attrs := [attr_B], fields := .unnamed [Ty.path ["e2", "Error"]] }

/-- The attribute `#[auto_error(err=true, make_from=true)]`. -/
def attr_C : Attr :=
  { path := "auto_error"
    parsedMeta := some (.list
      [.meta (.nameValue "err" (.boolLit true)),
       .meta (.nameValue "make_from" (.boolLit true))]) }

/-- Variant `C(e3::NotError)` of tests/test_generation.rs. -/
def g_C : Variant :=
  { name := "C", attrs := [attr_C], fields := .unnamed [Ty.path ["e3", "NotError"]] }

/-- The attribute `#[auto_error(make_from=true)]`. -/
def attr_D : Attr :=
  { path := "auto_error"
    parsedMeta := some (.list [.meta (.nameValue "make_from" (.boolLit true))]) }

/-- Variant `D(e4::NotError)` of tests/test_generation.rs. -/
def g_D : Variant :=
  { name := "D", attrs := [attr_D], fields := .unnamed [Ty.path ["e4", "NotError"]] }

/-- Variant `E(String, isize)` of tests/test_generation.rs. -/
def g_E : Variant :=
  { name := "E", attrs := [], fields := .unnamed [Ty.path ["String"], Ty.path ["isize"]] }

/-- Variant `F()` of tests/test_generation.rs. -/
def g_F : Variant :=
  { name := "F", attrs := [], fields := .unnamed [] }

/-- The whole enum of tests/test_generation.rs. -/
def input_gen : DeriveInput :=
  { ident := "Error", data := .enumData [g_A, g_B, g_C, g_D, g_E, g_F] }

/-- The resolved policies of the test_generation enum, in order. -/
def evs_gen : List ErrorVariant :=
  [{ err := true, make_from := true, format_str := "\x7b\x7d", variant := g_A },
   { err := false, make_from := false, format_str := "Error \x7b\x7d", variant := g_B },
   { err := true, make_from := true, format_str := "\x7b\x7d", variant := g_C },
   { err := false, make_from := true, format_str := "\x7b\x7d", variant := g_D },
   { err := false, make_from := false, format_str := "\x7b\x7d \x7b\x7d", variant := g_E },
   { err := false, make_from := false, format_str := "", variant := g_F }]

/-- The generated fragment for the test_generation enum. -/
def gen_out : Generated :=
  { error_ident := "Error"
    from_impls :=
      [{ sourcetype := Ty.path ["e1", "Error"], curvar := "A" },
       { sourcetype := Ty.path ["e3", "NotError"], curvar := "C" },
       { sourcetype := Ty.path ["e4", "NotError"], curvar := "D" }]
    display_branches :=
      [.unnamedArm "A" "\x7b\x7d" ["f0"],
       .unnamedArm "B" "Error \x7b\x7d" ["f0"],
       .unnamedArm "C" "\x7b\x7d" ["f0"],
       .unnamedArm "D" "\x7b\x7d" ["f0"],
       .unnamedArm "E" "\x7b\x7d \x7b\x7d" ["f0", "f1"],
       .unnamedArm "F" "" []]
    source_branches := ["A", "C"] }

/-- A bare `#[auto_error]` (meta parses as a path). -/
def attr_bare : Attr :=
  { path := "auto_error", parsedMeta := some (.path "auto_error") }

/-- A unit variant carrying a bare `#[auto_error]`. -/
def v_bare : Variant :=
  { name := "A", attrs := [attr_bare], fields := .unitF }

/-- The attribute `#[auto_error(err)]`: a path-only option inside the list. -/
def attr_path_opt : Attr :=
  { path := "auto_error", parsedMeta := some (.list [.meta (.path "err")]) }

/-- A unit variant carrying `#[auto_error(err)]`. -/
def v_path_opt : Variant :=
  { name := "A", attrs := [attr_path_opt], fields := .unitF }

/-! ### Helper lemmas -/

theorem find_auto_error_skip : ∀ (attrs : List Attr) (acc : Option Attr),
    (∀ a ∈ attrs, ¬ a.path = "auto_error") → find_auto_error attrs acc = .ok acc := by
  intro attrs
  induction attrs with
  | nil => intro acc _; rfl
  | cons a rest ih =>
    intro acc h
    simp only [find_auto_error, if_neg (h a (List.mem_cons_self a rest))]
    exact ih acc (fun x hx => h x (List.mem_cons_of_mem a hx))

theorem find_auto_error_error : ∀ (attrs : List Attr) (acc : Option Attr) (d : Diag),
    find_auto_error attrs acc = .error d → d = .duplicateDirective := by
  intro attrs
  induction attrs with
  | nil => intro acc d h; exact Except.noConfusion h
  | cons a rest ih =>
    intro acc d h
    simp only [find_auto_error] at h
    by_cases hp : a.path = "auto_error"
    · rw [if_pos hp] at h
      by_cases ha : acc.isSome
      · rw [if_pos ha] at h
        injection h with h
        exact h.symm
      · rw [if_neg ha] at h
        exact ih _ _ h
    · rw [if_neg hp] at h
      exact ih _ _ h

theorem find_auto_error_dup_some : ∀ (attrs : List Attr) (a₀ : Attr),
    (∃ a ∈ attrs, a.path = "auto_error") →
    find_auto_error attrs (some a₀) = .error .duplicateDirective := by
  intro attrs
  induction attrs with
  | nil =>
    intro a₀ h
    rcases h with ⟨a, ha, _⟩
    cases ha
  | cons a rest ih =>
    intro a₀ h
    by_cases hp : a.path = "auto_error"
    · simp only [find_auto_error, if_pos hp, Option.isSome_some, if_pos]
    · simp only [find_auto_error, if_neg hp]
      apply ih
      rcases h with ⟨x, hx, hxp⟩
      rcases List.mem_cons.mp hx with h1 | h2
      · exact absurd (h1 ▸ hxp) hp
      · exact ⟨x, h2, hxp⟩

theorem find_auto_error_dup_none : ∀ attrs : List Attr,
    2 ≤ (attrs.filter (fun a => a.path == "auto_error")).length →
    find_auto_error attrs none = .error .duplicateDirective := by
  intro attrs
  induction attrs with
  | nil => intro h; simp [List.filter] at h
  | cons a rest ih =>
    intro h
    by_cases hp : a.path = "auto_error"
    · simp only [find_auto_error, if_pos hp, Option.isSome_none, Bool.false_eq_true,
        if_neg, not_false_eq_true]
      apply find_auto_error_dup_some
      have hfilter : (rest.filter (fun a => a.path == "auto_error")).length ≥ 1 := by
        have : (a.path == "auto_error") = true := by simp [hp]
        simp only [List.filter_cons, this, if_pos, List.length_cons] at h
        omega
      have hne : rest.filter (fun a => a.path == "auto_error") ≠ [] := by
        intro hnil
        rw [hnil] at hfilter
        simp at hfilter
      obtain ⟨x, hx⟩ := List.exists_mem_of_ne_nil _ hne
      have := List.mem_filter.mp hx
      exact ⟨x, this.1, by simpa using this.2⟩
    · simp only [find_auto_error, if_neg hp]
      apply ih
      have : (a.path == "auto_error") = false := by simp [hp]
      simpa [List.filter_cons, this] using h

theorem apply_arg_ok (r r' : ErrorVariant) (arg : NestedMeta)
    (h : apply_arg r arg = .ok r') :
    r'.err = (err_assign arg).getD r.err ∧
    r'.make_from = (from_assign arg).getD r.make_from ∧
    r'.format_str = (fmt_assign arg).getD r.format_str ∧
    r'.variant = r.variant := by
  cases arg with
  | lit l => exact Except.noConfusion h
  | meta m =>
    cases m with
    | path p => exact Except.noConfusion h
    | list => exact Except.noConfusion h
    | nameValue name lit =>
      simp only [apply_arg] at h
      by_cases h1 : name = "err"
      · subst h1
        rw [if_pos rfl] at h
        cases lit with
        | boolLit v =>
          injection h with h
          subst h
          simp [err_assign, from_assign, fmt_assign]
        | strLit v => exact Except.noConfusion h
        | otherLit => exact Except.noConfusion h
      · rw [if_neg h1] at h
        by_cases h2 : name = "format_str"
        · subst h2
          rw [if_pos rfl] at h
          cases lit with
          | boolLit v => exact Except.noConfusion h
          | strLit v =>
            injection h with h
            subst h
            simp [err_assign, from_assign, fmt_assign]
          | otherLit => exact Except.noConfusion h
        · rw [if_neg h2] at h
          by_cases h3 : name = "make_from"
          · subst h3
            rw [if_pos rfl] at h
            cases lit with
            | boolLit v =>
              injection h with h
              subst h
              simp [err_assign, from_assign, fmt_assign]
            | strLit v => exact Except.noConfusion h
            | otherLit => exact Except.noConfusion h
          · rw [if_neg h3] at h
            exact Except.noConfusion h

theorem apply_args_ok : ∀ (items : List NestedMeta) (r r' : ErrorVariant),
    apply_args r items = .ok r' →
    r'.err = (items.filterMap err_assign).getLastD r.err ∧
    r'.make_from = (items.filterMap from_assign).getLastD r.make_from ∧
    r'.format_str = (items.filterMap fmt_assign).getLastD r.format_str ∧
    r'.variant = r.variant := by
  intro items
  induction items with
  | nil =>
    intro r r' h
    injection h with h
    subst h
    simp
  | cons arg rest ih =>
    intro r r' h
    cases harg : apply_arg r arg with
    | error e =>
      simp only [apply_args, harg] at h
      exact Except.noConfusion h
    | ok r₁ =>
      simp only [apply_args, harg] at h
      obtain ⟨he, hm, hf, hv⟩ := ih r₁ r' h
      obtain ⟨ae, am, af, av⟩ := apply_arg_ok r r₁ arg harg
      refine ⟨?_, ?_, ?_, by rw [hv, av]⟩
      · rw [he, ae, List.filterMap_cons]
        cases err_assign arg with
        | none => simp
        | some b => rw [List.getLastD_cons, Option.getD_some]
      · rw [hm, am, List.filterMap_cons]
        cases from_assign arg with
        | none => simp
        | some b => rw [List.getLastD_cons, Option.getD_some]
      · rw [hf, af, List.filterMap_cons]
        cases fmt_assign arg with
        | none => simp
        | some b => rw [List.getLastD_cons, Option.getD_some]

theorem apply_directive_ok (attr : Attr) (r r' : ErrorVariant)
    (h : apply_directive attr r = .ok r') : r'.variant = r.variant := by
  cases hm : attr.parsedMeta with
  | none =>
    simp only [apply_directive, hm] at h
    exact Except.noConfusion h
  | some meta =>
    cases meta with
    | path p =>
      simp only [apply_directive, hm] at h
      exact Except.noConfusion h
    | nameValue n l =>
      simp only [apply_directive, hm] at h
      exact Except.noConfusion h
    | list items =>
      simp only [apply_directive, hm] at h
      exact (apply_args_ok items r r' h).2.2.2

theorem Fields.len_eq (f : Fields) : f.len = f.tys.length := by
  cases f <;> rfl

theorem resolve_policy_ok (v : Variant) (r : ErrorVariant)
    (h : resolve_policy v = .ok r) :
    r.variant = v ∧ ∀ tys, v.fields ≠ .named tys := by
  obtain ⟨name, attrs, fields⟩ := v
  cases fields with
  | named tys =>
    simp only [resolve_policy] at h
    exact Except.noConfusion h
  | unnamed tys =>
    refine ⟨?_, by intro tys' h'; exact Fields.noConfusion h'⟩
    simp only [resolve_policy] at h
    cases hf : find_auto_error attrs none with
    | error e =>
      rw [hf] at h
      exact Except.noConfusion h
    | ok attrOpt =>
      rw [hf] at h
      cases attrOpt with
      | none =>
        injection h with h
        rw [← h]
      | some attr =>
        exact apply_directive_ok attr _ r h
  | unitF =>
    refine ⟨?_, by intro tys' h'; exact Fields.noConfusion h'⟩
    simp only [resolve_policy] at h
    cases hf : find_auto_error attrs none with
    | error e =>
      rw [hf] at h
      exact Except.noConfusion h
    | ok attrOpt =>
      rw [hf] at h
      cases attrOpt with
      | none =>
        injection h with h
        rw [← h]
      | some attr =>
        exact apply_directive_ok attr _ r h

theorem parse_variant_ok (v : Variant) (r : ErrorVariant)
    (h : parse_variant v = .ok r) :
    resolve_policy v = .ok r ∧
    (r.err = true → r.variant.fields.len = 1) ∧
    (r.make_from = true → r.variant.fields.len = 1) := by
  cases hres : resolve_policy v with
  | error e =>
    simp only [parse_variant, hres] at h
    exact Except.noConfusion h
  | ok r₀ =>
    simp only [parse_variant, hres] at h
    by_cases h1 : (r₀.err && r₀.variant.fields.len != 1) = true
    · rw [if_pos h1] at h
      exact Except.noConfusion h
    · rw [if_neg h1] at h
      by_cases h2 : (r₀.make_from && r₀.variant.fields.len != 1) = true
      · rw [if_pos h2] at h
        exact Except.noConfusion h
      · rw [if_neg h2] at h
        injection h with h
        subst h
        simp only [Bool.and_eq_true, bne_iff_ne, ne_eq, not_and, not_not] at h1 h2
        exact ⟨hres ▸ rfl, h1, h2⟩

theorem parse_variant_error_resolve (v : Variant) (d : Diag)
    (hres : resolve_policy v = .error d) : parse_variant v = .error d := by
  unfold parse_variant
  rw [hres]

theorem collect_variants_first_error :
    ∀ (pre : List Variant) (v : Variant) (post : List Variant) (d : Diag),
    (∀ u ∈ pre, ∃ e, parse_variant u = .ok e) →
    parse_variant v = .error d →
    collect_variants (pre ++ v :: post) = .error d := by
  intro pre
  induction pre with
  | nil =>
    intro v post d _ hv
    simp only [List.nil_append, collect_variants, hv]
  | cons u rest ih =>
    intro v post d hpre hv
    obtain ⟨e, he⟩ := hpre u (List.mem_cons_self u rest)
    simp only [List.cons_append, collect_variants, he, List.append_eq]
    rw [ih v post d (fun x hx => hpre x (List.mem_cons_of_mem u hx)) hv]

theorem collect_variants_mem : ∀ (vs : List Variant) (evs : List ErrorVariant),
    collect_variants vs = .ok evs → ∀ ev ∈ evs, ∃ v, parse_variant v = .ok ev := by
  intro vs
  induction vs with
  | nil =>
    intro evs h ev hev
    injection h with h
    subst h
    cases hev
  | cons v rest ih =>
    intro evs h ev hev
    cases hv : parse_variant v with
    | error e =>
      simp only [collect_variants, hv] at h
      exact Except.noConfusion h
    | ok e =>
      simp only [collect_variants, hv] at h
      cases hr : collect_variants rest with
      | error e2 =>
        rw [hr] at h
        exact Except.noConfusion h
      | ok evs' =>
        rw [hr] at h
        injection h with h
        subst h
        rcases List.mem_cons.mp hev with h1 | h2
        · subst h1
          exact ⟨v, hv⟩
        · exact ih evs' hr ev h2

theorem collect_pass_some {α β : Type} (f : α → Option β) :
    ∀ l : List α, (∀ a ∈ l, (f a).isSome) → ∃ bs, collect_pass f l = some bs := by
  intro l
  induction l with
  | nil => intro _; exact ⟨[], rfl⟩
  | cons a rest ih =>
    intro h
    obtain ⟨b, hb⟩ := Option.isSome_iff_exists.mp (h a (List.mem_cons_self a rest))
    obtain ⟨bs, hbs⟩ := ih (fun x hx => h x (List.mem_cons_of_mem a hx))
    exact ⟨b :: bs, by simp only [collect_pass, hb, hbs]⟩

theorem source_filterMap : ∀ evs : List ErrorVariant,
    (evs.map source_branch).filterMap id =
      (evs.filter (fun ev => ev.err)).map (fun ev => ev.variant.name) := by
  intro evs
  induction evs with
  | nil => rfl
  | cons ev rest ih =>
    cases he : ev.err with
    | true => simp [source_branch, he, ih, List.filter_cons]
    | false => simp [source_branch, he, ih, List.filter_cons]

theorem fold_fmt : ∀ (l : List Ty) (s : String),
    (l.foldl (fun (acc : String × Bool) _ =>
        if acc.2 then (acc.1 ++ "\x7b\x7d", false) else (acc.1 ++ " \x7b\x7d", false))
      (s, false)).1 = s ++ tailfmt l.length := by
  intro l
  induction l with
  | nil =>
    intro s
    simp [tailfmt, String.append_empty]
  | cons t rest ih =>
    intro s
    simp only [List.foldl_cons]
    show (rest.foldl _ (s ++ " \x7b\x7d", false)).1 = _
    rw [ih (s ++ " \x7b\x7d"), String.append_assoc]
    simp only [List.length_cons, tailfmt]

theorem placeholders_bridge : ∀ n : Nat,
    "\x7b\x7d" ++ tailfmt n = spec_format_str (n + 1) := by
  intro n
  induction n with
  | zero =>
    show "\x7b\x7d" ++ "" = spec_format_str 1
    rw [String.append_empty]
    rfl
  | succ n ih =>
    show "\x7b\x7d" ++ (" \x7b\x7d" ++ tailfmt n) = spec_format_str (n + 2)
    have h1 : (" \x7b\x7d" : String) = " " ++ "\x7b\x7d" := rfl
    have h2 : spec_format_str (n + 2) = "\x7b\x7d" ++ " " ++ spec_format_str (n + 1) := by
      simp only [spec_format_str, List.replicate_succ, joinSpace]
    rw [h2, ← ih, h1]
    rw [String.append_assoc, String.append_assoc]

theorem fold_fmt_full : ∀ l : List Ty,
    (l.foldl (fun (acc : String × Bool) _ =>
        if acc.2 then (acc.1 ++ "\x7b\x7d", false) else (acc.1 ++ " \x7b\x7d", false))
      ("", true)).1 = spec_format_str l.length := by
  intro l
  cases l with
  | nil => rfl
  | cons t rest =>
    simp only [List.foldl_cons]
    show (rest.foldl _ ("\x7b\x7d", false)).1 = _
    rw [fold_fmt rest "\x7b\x7d", placeholders_bridge, List.length_cons]

theorem apply_arg_error_ne (r : ErrorVariant) (arg : NestedMeta) (d : Diag)
    (h : apply_arg r arg = .error d) : d ≠ .namedFieldsUnsupported := by
  cases arg with
  | lit l =>
    injection h with h
    subst h
    exact Diag.noConfusion
  | meta m =>
    cases m with
    | path p =>
      injection h with h
      subst h
      exact Diag.noConfusion
    | list =>
      injection h with h
      subst h
      exact Diag.noConfusion
    | nameValue name lit =>
      simp only [apply_arg] at h
      by_cases h1 : name = "err"
      · rw [if_pos h1] at h
        cases lit with
        | boolLit v => exact Except.noConfusion h
        | strLit v =>
          injection h with h
          subst h
          exact Diag.noConfusion
        | otherLit =>
          injection h with h
          subst h
          exact Diag.noConfusion
      · rw [if_neg h1] at h
        by_cases h2 : name = "format_str"
        · rw [if_pos h2] at h
          cases lit with
          | boolLit v =>
            injection h with h
            subst h
            exact Diag.noConfusion
          | strLit v => exact Except.noConfusion h
          | otherLit =>
            injection h with h
            subst h
            exact Diag.noConfusion
        · rw [if_neg h2] at h
          by_cases h3 : name = "make_from"
          · rw [if_pos h3] at h
            cases lit with
            | boolLit v => exact Except.noConfusion h
            | strLit v =>
              injection h with h
              subst h
              exact Diag.noConfusion
            | otherLit =>
              injection h with h
              subst h
              exact Diag.noConfusion
          · rw [if_neg h3] at h
            injection h with h
            subst h
            exact Diag.noConfusion

theorem apply_args_error_ne : ∀ (items : List NestedMeta) (r : ErrorVariant) (d : Diag),
    apply_args r items = .error d → d ≠ .namedFieldsUnsupported := by
  intro items
  induction items with
  | nil =>
    intro r d h
    exact Except.noConfusion h
  | cons arg rest ih =>
    intro r d h
    cases harg : apply_arg r arg with
    | error e =>
      simp only [apply_args, harg] at h
      injection h with h
      subst h
      exact apply_arg_error_ne r arg _ harg
    | ok r₁ =>
      simp only [apply_args, harg] at h
      exact ih r₁ d h

theorem apply_directive_error_ne (attr : Attr) (r : ErrorVariant) (d : Diag)
    (h : apply_directive attr r = .error d) : d ≠ .namedFieldsUnsupported := by
  cases hm : attr.parsedMeta with
  | none =>
    simp only [apply_directive, hm] at h
    injection h with h
    subst h
    exact Diag.noConfusion
  | some meta =>
    cases meta with
    | path p =>
      simp only [apply_directive, hm] at h
      injection h with h
      subst h
      exact Diag.noConfusion
    | nameValue n l =>
      simp only [apply_directive, hm] at h
      injection h with h
      subst h
      exact Diag.noConfusion
    | list items =>
      simp only [apply_directive, hm] at h
      exact apply_args_error_ne items r d h

theorem parse_variant_error_cases (v : Variant) (d : Diag)
    (h : parse_variant v = .error d) :
    resolve_policy v = .error d ∨ d = .errArityMismatch ∨ d = .fromArityMismatch := by
  cases hres : resolve_policy v with
  | error e =>
    simp only [parse_variant, hres] at h
    injection h with h
    subst h
    exact Or.inl rfl
  | ok r =>
    simp only [parse_variant, hres] at h
    by_cases h1 : (r.err && r.variant.fields.len != 1) = true
    · rw [if_pos h1] at h
      injection h with h
      exact Or.inr (Or.inl h.symm)
    · rw [if_neg h1] at h
      by_cases h2 : (r.make_from && r.variant.fields.len != 1) = true
      · rw [if_pos h2] at h
        injection h with h
        exact Or.inr (Or.inr h.symm)
      · rw [if_neg h2] at h
        exact Except.noConfusion h

theorem resolve_policy_error_named (v : Variant)
    (hnn : ∀ tys, v.fields ≠ Fields.named tys) :
    resolve_policy v ≠ Except.error Diag.namedFieldsUnsupported := by
  intro h
  obtain ⟨name, attrs, fields⟩ := v
  cases fields with
  | named tys => exact hnn tys rfl
  | unnamed tys =>
    simp only [resolve_policy] at h
    cases hf : find_auto_error attrs none with
    | error e =>
      simp only [hf] at h
      injection h with h
      have hdup := find_auto_error_error attrs none e hf
      rw [hdup] at h
      exact Diag.noConfusion h
    | ok attrOpt =>
      simp only [hf] at h
      cases attrOpt with
      | none => exact Except.noConfusion h
      | some attr => exact apply_directive_error_ne attr _ _ h rfl
  | unitF =>
    simp only [resolve_policy] at h
    cases hf : find_auto_error attrs none with
    | error e =>
      simp only [hf] at h
      injection h with h
      have hdup := find_auto_error_error attrs none e hf
      rw [hdup] at h
      exact Diag.noConfusion h
    | ok attrOpt =>
      simp only [hf] at h
      cases attrOpt with
      | none => exact Except.noConfusion h
      | some attr => exact apply_directive_error_ne attr _ _ h rfl

/-! ### Claim theorems -/

/-- C1: for every variant, the default resolved policy (the inferred values
`err = make_from = infer_is_error`, installed by `parse_variant` before any
directive override) has `err = true` and `make_from = true` if and only if
the variant has exactly one unnamed field whose type is a path whose last
segment is lexically `Error`; in every other case the defaults are
`err = false` and `make_from = false`. -/
theorem C1_default_policy (v : Variant) :
    (infer_is_error v = true ↔ isWrappedCauseShape v) ∧
    ((∀ a ∈ v.attrs, ¬ a.path = "auto_error") →
      ∀ ev, resolve_policy v = Except.ok ev →
        ev.err = infer_is_error v ∧ ev.make_from = infer_is_error v) := by
  obtain ⟨name, attrs, fields⟩ := v
  constructor
  · cases fields with
    | named tys => simp [infer_is_error, isWrappedCauseShape]
    | unitF => simp [infer_is_error, isWrappedCauseShape, Fields.len]
    | unnamed tys =>
      cases tys with
      | nil => simp [infer_is_error, isWrappedCauseShape, Fields.len, Fields.tys]
      | cons t rest =>
        cases rest with
        | cons t2 r2 =>
          simp [infer_is_error, isWrappedCauseShape, Fields.len, Fields.tys]
        | nil =>
          cases t with
          | other => simp [infer_is_error, isWrappedCauseShape, Fields.len, Fields.tys]
          | path segs =>
            simp only [infer_is_error, isWrappedCauseShape, Fields.len, Fields.tys,
              List.length_cons, List.length_nil, List.head?_cons, ne_eq,
              Nat.zero_add, not_true_eq_false, if_false,
              Fields.unnamed.injEq, List.cons.injEq, and_true, Ty.path.injEq]
            constructor
            · intro h
              by_cases h0 : segs.length = 0
              · rw [if_pos h0] at h
                exact absurd h (by simp)
              · rw [if_neg h0] at h
                by_cases hl : segs.getLast? = some "Error"
                · exact ⟨segs, rfl, hl⟩
                · rw [if_neg hl] at h
                  exact absurd h (by simp)
            · rintro ⟨segs', hseq, hl⟩
              subst hseq
              have h0 : segs.length ≠ 0 := by
                intro h0
                rw [List.length_eq_zero.mp h0] at hl
                exact Option.noConfusion hl
              rw [if_neg h0, if_pos hl]
  · intro hno ev h
    have hfind := find_auto_error_skip attrs none hno
    cases fields with
    | named tys =>
      simp only [resolve_policy] at h
      exact Except.noConfusion h
    | unnamed tys =>
      simp only [resolve_policy, hfind] at h
      injection h with h
      subst h
      exact ⟨rfl, rfl⟩
    | unitF =>
      simp only [resolve_policy, hfind] at h
      injection h with h
      subst h
      exact ⟨rfl, rfl⟩

/-- Witness for C1 at the variant `IO(std::io::Error)` with no attribute:
the inferred-cause shape holds and the resolved defaults are both `true`. -/
theorem C1_default_policy_witness :
    (infer_is_error v_io = true ↔ isWrappedCauseShape v_io) ∧
    resolve_policy v_io = Except.ok ev_io ∧
    (ev_io.err = infer_is_error v_io ∧ ev_io.make_from = infer_is_error v_io) := by
  refine ⟨(C1_default_policy v_io).1, rfl,
    (C1_default_policy v_io).2 ?_ ev_io rfl⟩
  intro a ha
  simp [v_io] at ha

/-- C2: for every variant with `N` fields, the default format string
computed by `infer_format_str` consists of exactly `N` placeholders joined
by single spaces, and a variant with no `auto_error` directive resolves to
that default. -/
theorem C2_default_format (v : Variant) :
    infer_format_str v = spec_format_str v.fields.len ∧
    ((∀ a ∈ v.attrs, ¬ a.path = "auto_error") →
      ∀ ev, resolve_policy v = Except.ok ev →
        ev.format_str = spec_format_str v.fields.len) := by
  obtain ⟨name, attrs, fields⟩ := v
  have hmain : infer_format_str ⟨name, attrs, fields⟩ =
      spec_format_str (Fields.len fields) := by
    cases fields with
    | named tys =>
      simp only [infer_format_str, Fields.tys, Fields.len]
      exact fold_fmt_full tys
    | unnamed tys =>
      simp only [infer_format_str, Fields.tys, Fields.len]
      exact fold_fmt_full tys
    | unitF =>
      simp only [infer_format_str, Fields.tys, Fields.len]
      exact fold_fmt_full []
  refine ⟨hmain, ?_⟩
  intro hno ev h
  have hfind := find_auto_error_skip attrs none hno
  cases fields with
  | named tys =>
    simp only [resolve_policy] at h
    exact Except.noConfusion h
  | unnamed tys =>
    simp only [resolve_policy, hfind] at h
    injection h with h
    subst h
    exact hmain
  | unitF =>
    simp only [resolve_policy, hfind] at h
    injection h with h
    subst h
    exact hmain

/-- Witness for C2 at the two-field variant `E(String, isize)` with no
directive: the default and resolved format string is two placeholders
joined by one space. -/
theorem C2_default_format_witness :
    infer_format_str g_E = spec_format_str g_E.fields.len ∧
    resolve_policy g_E = Except.ok
      { err := false, make_from := false, format_str := "\x7b\x7d \x7b\x7d", variant := g_E } ∧
    spec_format_str g_E.fields.len = "\x7b\x7d \x7b\x7d" := by
  refine ⟨(C2_default_format g_E).1, rfl, ?_⟩
  have := (C2_default_format g_E).2 (by intro a ha; simp [g_E] at ha)
    { err := false, make_from := false, format_str := "\x7b\x7d \x7b\x7d", variant := g_E } rfl
  exact this.symm

/-- C3: for a variant whose attribute scan finds a single `auto_error`
directive with argument list `items`, a successful parse resolves each of
the three options to the last value `items` explicitly assigns to it, and
every option `items` does not mention keeps its inferred default
(`infer_is_error` for the booleans, `infer_format_str` for the string). -/
theorem C3_directive_merge (v : Variant) (a : Attr) (items : List NestedMeta)
    (r : ErrorVariant)
    (hfind : find_auto_error v.attrs none = Except.ok (some a))
    (hmeta : a.parsedMeta = some (Meta.list items))
    (hok : parse_variant v = Except.ok r) :
    r.err = (items.filterMap err_assign).getLastD (infer_is_error v) ∧
    r.make_from = (items.filterMap from_assign).getLastD (infer_is_error v) ∧
    r.format_str = (items.filterMap fmt_assign).getLastD (infer_format_str v) := by
  obtain ⟨hres, -, -⟩ := parse_variant_ok v r hok
  obtain ⟨name, attrs, fields⟩ := v
  cases fields with
  | named tys =>
    simp only [resolve_policy] at hres
    exact Except.noConfusion hres
  | unnamed tys =>
    simp only [resolve_policy, hfind, apply_directive, hmeta] at hres
    obtain ⟨he, hm, hf, -⟩ := apply_args_ok items _ r hres
    exact ⟨he, hm, hf⟩
  | unitF =>
    simp only [resolve_policy, hfind, apply_directive, hmeta] at hres
    obtain ⟨he, hm, hf, -⟩ := apply_args_ok items _ r hres
    exact ⟨he, hm, hf⟩

/-- Witness for C3 at `B(Error)` carrying only
`#[auto_error(format_str="custom")]`: the format string is overridden while
both booleans keep their inferred default `true`. -/
theorem C3_directive_merge_witness :
    parse_variant v_fmt_only = Except.ok ev_fmt_only ∧
    (ev_fmt_only.err = (fmt_items.filterMap err_assign).getLastD (infer_is_error v_fmt_only) ∧
     ev_fmt_only.make_from =
       (fmt_items.filterMap from_assign).getLastD (infer_is_error v_fmt_only) ∧
     ev_fmt_only.format_str =
       (fmt_items.filterMap fmt_assign).getLastD (infer_format_str v_fmt_only)) ∧
    ev_fmt_only.err = true ∧ ev_fmt_only.make_from = true ∧
    ev_fmt_only.format_str = "custom" :=
  ⟨rfl, C3_directive_merge v_fmt_only attr_fmt_only fmt_items ev_fmt_only rfl rfl rfl,
    rfl, rfl, rfl⟩

/-- C4: whenever the resolved policy of a variant with field count other
than one has `err = true`, `parse_variant` fails with the err-arity
diagnostic; when it has `err = false` but `make_from = true`, it fails with
the from-arity diagnostic — regardless of whether the flag came from the
heuristic default or an explicit directive. -/
theorem C4_arity_check (v : Variant) (r : ErrorVariant)
    (hres : resolve_policy v = Except.ok r)
    (hlen : v.fields.len ≠ 1) :
    (r.err = true → parse_variant v = Except.error Diag.errArityMismatch) ∧
    (r.err = false → r.make_from = true →
      parse_variant v = Except.error Diag.fromArityMismatch) := by
  have hvar : r.variant = v := (resolve_policy_ok v r hres).1
  constructor
  · intro he
    have hc : (r.err && r.variant.fields.len != 1) = true := by
      rw [he, hvar]
      simp [bne_iff_ne, hlen]
    simp only [parse_variant, hres]
    rw [if_pos hc]
  · intro he hm
    have hc1 : ¬((r.err && r.variant.fields.len != 1) = true) := by
      simp [he]
    have hc2 : (r.make_from && r.variant.fields.len != 1) = true := by
      rw [hm, hvar]
      simp [bne_iff_ne, hlen]
    simp only [parse_variant, hres]
    rw [if_neg hc1, if_pos hc2]

/-- Witness for C4, at a unit variant with `#[auto_error(err=true)]`
(err-arity failure) and a unit variant with `#[auto_error(make_from=true)]`
(from-arity failure). -/
theorem C4_arity_check_witness :
    resolve_policy v_err_unit = Except.ok
      { err := true, make_from := false, format_str := "", variant := v_err_unit } ∧
    v_err_unit.fields.len ≠ 1 ∧
    parse_variant v_err_unit = Except.error Diag.errArityMismatch ∧
    parse_variant v_mf_unit = Except.error Diag.fromArityMismatch := by
  refine ⟨rfl, by decide, ?_, ?_⟩
  · exact (C4_arity_check v_err_unit
      { err := true, make_from := false, format_str := "", variant := v_err_unit }
      rfl (by decide)).1 rfl
  · exact (C4_arity_check v_mf_unit
      { err := false, make_from := true, format_str := "", variant := v_mf_unit }
      rfl (by decide)).2 rfl rfl

/-- C5: a non-record variant carrying two or more `auto_error` attributes
fails with the duplicate-directive diagnostic, regardless of the contents
of those attributes (their metas are never interpreted: no hypothesis
constrains them). -/
theorem C5_duplicate_directive (v : Variant)
    (hshape : ∀ tys, v.fields ≠ Fields.named tys)
    (hdup : 2 ≤ (v.attrs.filter (fun a => a.path == "auto_error")).length) :
    parse_variant v = Except.error Diag.duplicateDirective := by
  have hfind := find_auto_error_dup_none v.attrs hdup
  apply parse_variant_error_resolve
  obtain ⟨name, attrs, fields⟩ := v
  cases fields with
  | named tys => exact absurd rfl (hshape tys)
  | unnamed tys => simp only [resolve_policy, hfind]
  | unitF => simp only [resolve_policy, hfind]

/-- Witness for C5 at the fixture of tests/double_auto_error.rs:
`A(std::io::Error)` with both `#[auto_error(err=true)]` and
`#[auto_error()]`. -/
theorem C5_duplicate_directive_witness :
    (∀ tys, v_dup.fields ≠ Fields.named tys) ∧
    2 ≤ (v_dup.attrs.filter (fun a => a.path == "auto_error")).length ∧
    parse_variant v_dup = Except.error Diag.duplicateDirective := by
  have hshape : ∀ tys, v_dup.fields ≠ Fields.named tys := by
    intro tys h
    simp [v_dup] at h
  exact ⟨hshape, by decide, C5_duplicate_directive v_dup hshape (by decide)⟩

/-- C6: a record-style (named-fields) variant is rejected with the
named-fields diagnostic no matter what attributes it carries, while a unit
or unnamed-fields variant can never produce that diagnostic. -/
theorem C6_shape_check (v : Variant) :
    (∀ tys, v.fields = Fields.named tys →
      parse_variant v = Except.error Diag.namedFieldsUnsupported) ∧
    ((∀ tys, v.fields ≠ Fields.named tys) →
      parse_variant v ≠ Except.error Diag.namedFieldsUnsupported) := by
  constructor
  · intro tys hf
    apply parse_variant_error_resolve
    obtain ⟨name, attrs, fields⟩ := v
    simp only at hf
    subst hf
    simp only [resolve_policy]
  · intro hnn hcontra
    rcases parse_variant_error_cases v _ hcontra with hres | h | h
    · exact resolve_policy_error_named v hnn hres
    · exact Diag.noConfusion h
    · exact Diag.noConfusion h

/-- Witness for C6: the record-style variant is rejected with the
named-fields diagnostic; the unit variant (no fields, no directive) never
produces it. -/
theorem C6_shape_check_witness :
    parse_variant v_named = Except.error Diag.namedFieldsUnsupported ∧
    parse_variant v_unit ≠ Except.error Diag.namedFieldsUnsupported := by
  constructor
  · exact (C6_shape_check v_named).1 [Ty.path ["String"]] rfl
  · exact (C6_shape_check v_unit).2 (by intro tys h; simp [v_unit] at h)

/-- C7: the expansion is all-or-nothing.  A non-enum input yields the
not-an-enum diagnostic; if the variant list splits as `pre ++ v :: post`
with every variant of `pre` parsing successfully and `v` failing with `d`,
the whole expansion yields exactly `d` (the emitter never runs); and any
produced output presupposes that every variant parsed and the emitter ran
on the full list. -/
theorem C7_pipeline (input : DeriveInput) :
    ((∀ vs, input.data ≠ Data.enumData vs) →
      derive input = DeriveResult.diag Diag.notAnEnum) ∧
    (∀ vs pre v post d, input.data = Data.enumData vs → vs = pre ++ v :: post →
      (∀ u ∈ pre, ∃ e, parse_variant u = Except.ok e) →
      parse_variant v = Except.error d →
      derive input = DeriveResult.diag d) ∧
    (∀ g, derive input = DeriveResult.output g →
      ∃ vs evs, input.data = Data.enumData vs ∧
        collect_variants vs = Except.ok evs ∧ emit input.ident evs = some g) := by
  obtain ⟨ident, data⟩ := input
  refine ⟨?_, ?_, ?_⟩
  · intro hne
    cases data with
    | enumData vs => exact absurd rfl (hne vs)
    | structData => rfl
    | unionData => rfl
  · intro vs pre v post d hdata hsplit hpre hv
    simp only at hdata
    subst hdata
    subst hsplit
    have hcol := collect_variants_first_error pre v post d hpre hv
    simp only [derive, hcol]
  · intro g hout
    cases data with
    | structData =>
      simp only [derive] at hout
      exact DeriveResult.noConfusion hout
    | unionData =>
      simp only [derive] at hout
      exact DeriveResult.noConfusion hout
    | enumData vs =>
      cases hcol : collect_variants vs with
      | error e =>
        simp only [derive, hcol] at hout
        exact DeriveResult.noConfusion hout
      | ok evs =>
        simp only [derive, hcol] at hout
        cases hemit : emit ident evs with
        | none =>
          rw [hemit] at hout
          exact DeriveResult.noConfusion hout
        | some g' =>
          rw [hemit] at hout
          injection hout with hout
          subst hout
          exact ⟨vs, evs, rfl, hcol, hemit⟩

/-- Witness for C7: a struct input yields the not-an-enum diagnostic, and
an enum whose first variant has named fields yields that variant's
diagnostic. -/
theorem C7_pipeline_witness :
    (∀ vs, input_struct.data ≠ Data.enumData vs) ∧
    derive input_struct = DeriveResult.diag Diag.notAnEnum ∧
    parse_variant v_named = Except.error Diag.namedFieldsUnsupported ∧
    derive input_named = DeriveResult.diag Diag.namedFieldsUnsupported := by
  have h1 : ∀ vs, input_struct.data ≠ Data.enumData vs := by
    intro vs h
    simp [input_struct] at h
  refine ⟨h1, (C7_pipeline input_struct).1 h1, rfl, ?_⟩
  exact (C7_pipeline input_named).2.1 [v_named] [] v_named [] Diag.namedFieldsUnsupported
    rfl rfl (by intro u hu; exact absurd hu (List.not_mem_nil u)) rfl

/-- C8: the emitted `source` implementation has exactly one arm per
resolved `err = true` variant (in order, each arm returning the variant's
sole bound field), and every `err = false` variant contributes no arm, so
it falls to the emitted catch-all arm returning `None`. -/
theorem C8_source_arms (input : DeriveInput) (vs : List Variant)
    (evs : List ErrorVariant) (g : Generated)
    (hdata : input.data = Data.enumData vs)
    (hparse : collect_variants vs = Except.ok evs)
    (hout : derive input = DeriveResult.output g) :
    g.source_branches =
      (evs.filter (fun ev => ev.err)).map (fun ev => ev.variant.name) ∧
    (∀ ev ∈ evs, ev.err = false → source_branch ev = none) := by
  obtain ⟨ident, data⟩ := input
  simp only at hdata
  subst hdata
  simp only [derive, hparse] at hout
  cases hemit : emit ident evs with
  | none =>
    rw [hemit] at hout
    exact DeriveResult.noConfusion hout
  | some g' =>
    rw [hemit] at hout
    injection hout with hout
    subst hout
    constructor
    · simp only [emit] at hemit
      cases h1 : collect_pass from_impl evs with
      | none =>
        rw [h1] at hemit
        exact Option.noConfusion hemit
      | some fis =>
        rw [h1] at hemit
        cases h2 : collect_pass display_branch evs with
        | none =>
          rw [h2] at hemit
          exact Option.noConfusion hemit
        | some dbs =>
          rw [h2] at hemit
          injection hemit with hemit
          subst hemit
          exact source_filterMap evs
    · intro ev hev hevf
      simp [source_branch, hevf]

/-- Witness for C8 at the test_generation enum: the source arms are exactly
the `err = true` variants `A` and `C`. -/
theorem C8_source_arms_witness :
    collect_variants [g_A, g_B, g_C, g_D, g_E, g_F] = Except.ok evs_gen ∧
    derive input_gen = DeriveResult.output gen_out ∧
    gen_out.source_branches =
      (evs_gen.filter (fun ev => ev.err)).map (fun ev => ev.variant.name) ∧
    gen_out.source_branches = ["A", "C"] := by
  refine ⟨rfl, rfl, ?_, rfl⟩
  exact (C8_source_arms input_gen [g_A, g_B, g_C, g_D, g_E, g_F] evs_gen gen_out
    rfl rfl rfl).1

/-- C9: on every input the expansion is total — the emitter's partial
operations (the `unwrap` in the `From` pass, the named-fields panic in the
`Display` pass) are unreachable after `parse_variant` has accepted the
variants, so `derive` never panics. -/
theorem C9_no_panic (input : DeriveInput) : derive input ≠ DeriveResult.panicked := by
  intro h
  obtain ⟨ident, data⟩ := input
  cases data with
  | structData =>
    simp only [derive] at h
    exact DeriveResult.noConfusion h
  | unionData =>
    simp only [derive] at h
    exact DeriveResult.noConfusion h
  | enumData vs =>
    cases hcol : collect_variants vs with
    | error e =>
      simp only [derive, hcol] at h
      exact DeriveResult.noConfusion h
    | ok evs =>
      simp only [derive, hcol] at h
      have hfrom : ∀ ev ∈ evs, (from_impl ev).isSome := by
        intro ev hev
        obtain ⟨v, hv⟩ := collect_variants_mem vs evs hcol ev hev
        obtain ⟨hres, -, hmf⟩ := parse_variant_ok v ev hv
        cases hmb : ev.make_from with
        | false => simp [from_impl, hmb]
        | true =>
          have hlen : ev.variant.fields.len = 1 := hmf hmb
          rw [Fields.len_eq] at hlen
          cases ht : ev.variant.fields.tys with
          | nil =>
            rw [ht] at hlen
            simp at hlen
          | cons a l => simp [from_impl, hmb, ht]
      have hdisp : ∀ ev ∈ evs, (display_branch ev).isSome := by
        intro ev hev
        obtain ⟨v, hv⟩ := collect_variants_mem vs evs hcol ev hev
        obtain ⟨hres, -, -⟩ := parse_variant_ok v ev hv
        obtain ⟨hvar, hnn⟩ := resolve_policy_ok v ev hres
        cases hf : ev.variant.fields with
        | named tys => exact absurd (hvar ▸ hf) (hnn tys)
        | unnamed tys => simp [display_branch, hf]
        | unitF => simp [display_branch, hf]
      obtain ⟨fis, hfis⟩ := collect_pass_some from_impl evs hfrom
      obtain ⟨dbs, hdbs⟩ := collect_pass_some display_branch evs hdisp
      simp only [emit, hfis, hdbs] at h
      exact DeriveResult.noConfusion h

/-- C10: for a non-record variant whose single `auto_error` directive does
not parse to a parenthesized list — or whose list contains a bare literal,
a path-only option, or a nested list instead of a `name = literal` pair —
`parse_variant` fails with the incorrect-arguments diagnostic, so only
`name = literal` pairs ever reach the option-name and option-type checks. -/
theorem C10_incorrect_args (v : Variant) (a : Attr)
    (hshape : ∀ tys, v.fields ≠ Fields.named tys)
    (hfind : find_auto_error v.attrs none = Except.ok (some a)) :
    (∀ m, a.parsedMeta = some m → (∀ items, m ≠ Meta.list items) →
      parse_variant v = Except.error Diag.incorrectArgs) ∧
    (∀ items rest, a.parsedMeta = some (Meta.list items) →
      ((∃ l, items = NestedMeta.lit l :: rest) ∨
       (∃ p, items = NestedMeta.meta (MetaItem.path p) :: rest) ∨
       items = NestedMeta.meta MetaItem.list :: rest) →
      parse_variant v = Except.error Diag.incorrectArgs) := by
  constructor
  · intro m hm hnl
    apply parse_variant_error_resolve
    obtain ⟨name, attrs, fields⟩ := v
    cases fields with
    | named tys => exact absurd rfl (hshape tys)
    | unnamed tys =>
      simp only [resolve_policy, hfind, apply_directive, hm]
    | unitF =>
      simp only [resolve_policy, hfind, apply_directive, hm]
  · intro items rest hm hfirst
    apply parse_variant_error_resolve
    have hbad : ∀ r : ErrorVariant, apply_args r items = Except.error Diag.incorrectArgs := by
      intro r
      rcases hfirst with ⟨l, h⟩ | ⟨p, h⟩ | h <;> subst h <;> rfl
    obtain ⟨name, attrs, fields⟩ := v
    cases fields with
    | named tys => exact absurd rfl (hshape tys)
    | unnamed tys => simp only [resolve_policy, hfind, apply_directive, hm, hbad]
    | unitF => simp only [resolve_policy, hfind, apply_directive, hm, hbad]

/-- Witness for C10: a bare `#[auto_error]` and a path-only
`#[auto_error(err)]` both fail with the incorrect-arguments diagnostic. -/
theorem C10_incorrect_args_witness :
    parse_variant v_bare = Except.error Diag.incorrectArgs ∧
    parse_variant v_path_opt = Except.error Diag.incorrectArgs := by
  constructor
  · exact (C10_incorrect_args v_bare attr_bare
      (by intro tys h; simp [v_bare] at h) rfl).1
      (Meta.path "auto_error") rfl (by intro items h; exact Meta.noConfusion h)
  · exact (C10_incorrect_args v_path_opt attr_path_opt
      (by intro tys h; simp [v_path_opt] at h) rfl).2
      [NestedMeta.meta (MetaItem.path "err")] [] rfl (Or.inr (Or.inl ⟨"err", rfl⟩))

end AutoError
